import Mathlib

/-!
Verification development for the ingestion-aggregation-and-LLM-synthesis
pipeline of `src/synthesis/idea_generator.py`.

The Python code is shallowly embedded: JSON values decoded by the standard
`json` module are modelled by the inductive `JValue`; the stdlib pieces the
code relies on (`json.loads`, `str.strip`, `str`, truthiness, `sorted`,
`str.join`, slicing) are modelled by executable Lean functions named `py...`
or `loads...`; the network is abstracted by an oracle mapping each call site
and request to the returned content (`none` models a raised exception).
-/

/-- A decoded JSON value, as produced by Python's `json.loads`. -/
inductive JValue where
  | null : JValue
  | bool : Bool → JValue
  | num : ℚ → JValue
  | str : String → JValue
  | arr : List JValue → JValue
  | obj : List (String × JValue) → JValue

/-- The backtick character (avoids quoting it directly). -/
def bq : Char := Char.ofNat 96

/-- Left brace character. -/
def lbrace : Char := Char.ofNat 123

/-- Right brace character. -/
def rbrace : Char := Char.ofNat 125

/-- Single-quote character, used by the model of Python `repr`. -/
def squote : Char := Char.ofNat 39

/-- Models the whitespace set stripped by Python's `str.strip()`
(restricted to the ASCII whitespace characters). -/
def isPyWs (c : Char) : Bool :=
  c = ' ' || c = '\t' || c = '\n' || c = '\r' || c = Char.ofNat 11 || c = Char.ofNat 12

/-- Drop from the right of a list every trailing element satisfying `p`. -/
def dropTrailing (p : Char → Bool) (l : List Char) : List Char :=
  (l.reverse.dropWhile p).reverse

/-- Models Python's `str.strip()` (ASCII whitespace). -/
def pyStrip (s : String) : String :=
  ⟨dropTrailing isPyWs (s.data.dropWhile isPyWs)⟩

/-- Models Python's truthiness test on JSON-decoded values. -/
def pyTruthy : JValue → Bool
  | .null => false
  | .bool b => b
  | .num q => q ≠ 0
  | .str s => !s.isEmpty
  | .arr l => !l.isEmpty
  | .obj m => !m.isEmpty

/-- Models `dict.get(k)` (`None` absent): first matching key wins. -/
def pyGet (m : List (String × JValue)) (k : String) : Option JValue :=
  match m with
  | [] => none
  | p :: rest => if p.1 = k then some p.2 else pyGet rest k

/-- Models `dict.get(k, d)`. -/
def pyGetD (m : List (String × JValue)) (k : String) (d : JValue) : JValue :=
  (pyGet m k).getD d

/-- Models Python dict insertion: replaces the value at the first occurrence
of the key, keeping its position, else appends. -/
def insertKey (m : List (String × JValue)) (k : String) (v : JValue) :
    List (String × JValue) :=
  match m with
  | [] => [(k, v)]
  | p :: rest => if p.1 = k then (k, v) :: rest else p :: insertKey rest k v

/-- Models Python's `repr()` on JSON-decoded values (best-effort: strings
are not re-escaped and non-integral numbers print as fractions; the pipeline
only ever feeds the result of `str()` into the metric-tag heuristic). -/
def pyRepr : JValue → String
  | .null => "None"
  | .bool true => "True"
  | .bool false => "False"
  | .num q => if q.den = 1 then toString q.num else toString q
  | .str s => ⟨squote :: s.data ++ [squote]⟩
  | .arr l => "[" ++ String.intercalate (", ") (l.attach.map fun x => pyRepr x.1) ++ "]"
  | .obj m =>
      ⟨[lbrace]⟩ ++
        String.intercalate (", ")
          (m.attach.map fun x =>
            (⟨squote :: x.1.1.data ++ [squote]⟩ : String) ++ ": " ++ pyRepr x.1.2) ++
        ⟨[rbrace]⟩
decreasing_by
  · have h := List.sizeOf_lt_of_mem x.2
    simp only [JValue.arr.sizeOf_spec]
    omega
  · have h := List.sizeOf_lt_of_mem x.2
    have h2 : sizeOf x.1.2 < sizeOf x.1 := by
      obtain ⟨a, b⟩ := x.1
      simp only [Prod.mk.sizeOf_spec]
      omega
    simp only [JValue.obj.sizeOf_spec]
    omega

/-- Models Python's `str()` on JSON-decoded values. -/
def pyStr : JValue → String
  | .str s => s
  | v => pyRepr v

/-- Models Python's `str.join` on a list of strings. -/
def pyJoin (sep : String) : List String → String
  | [] => ""
  | [x] => x
  | x :: y :: rest => x ++ sep ++ pyJoin sep (y :: rest)

/-- Models Python's list slicing `l[:n]` / `s[:n]` for a nonnegative bound;
non-subscriptable values raise `TypeError`. -/
def pySlice : JValue → Nat → Except String JValue
  | .arr l, n => .ok (.arr (l.take n))
  | .str s, n => .ok (.str ⟨s.data.take n⟩)
  | _, _ => .error ("TypeError: object is not subscriptable")

/-- Models the whitespace skipped by Python's JSON decoder. -/
def isJsonWs (c : Char) : Bool :=
  c = ' ' || c = '\t' || c = '\n' || c = '\r'

/-- Skip JSON whitespace. -/
def skipWs (cs : List Char) : List Char := cs.dropWhile isJsonWs

/-- Value of a hex digit, if any. -/
def hexVal (c : Char) : Option Nat :=
  if c.isDigit then some (c.toNat - 48)
  else if 'a' ≤ c ∧ c ≤ 'f' then some (c.toNat - 87)
  else if 'A' ≤ c ∧ c ≤ 'F' then some (c.toNat - 55)
  else none

/-- Parse the body of a JSON string (after the opening quote), handling the
escape sequences accepted by Python's decoder; unescaped control characters
are rejected as Python's strict mode does. Fuel-indexed for termination. -/
def parseStrBody : Nat → List Char → Option (String × List Char)
  | 0, _ => none
  | _ + 1, [] => none
  | f + 1, c :: rest =>
    if c = '"' then some ("", rest)
    else if c = '\\' then
      match rest with
      | [] => none
      | e :: r2 =>
        let dec : Option (Char × List Char) :=
          if e = '"' then some ('"', r2)
          else if e = '\\' then some ('\\', r2)
          else if e = '/' then some ('/', r2)
          else if e = 'b' then some (Char.ofNat 8, r2)
          else if e = 'f' then some (Char.ofNat 12, r2)
          else if e = 'n' then some ('\n', r2)
          else if e = 'r' then some ('\r', r2)
          else if e = 't' then some ('\t', r2)
          else if e = 'u' then
            match r2 with
            | h1 :: h2 :: h3 :: h4 :: r3 =>
              match hexVal h1, hexVal h2, hexVal h3, hexVal h4 with
              | some a, some b, some c2, some d =>
                  some (Char.ofNat (a * 4096 + b * 256 + c2 * 16 + d), r3)
              | _, _, _, _ => none
            | _ => none
          else none
        match dec with
        | some (ch, r4) =>
          match parseStrBody f r4 with
          | some (s, r5) => some (⟨ch :: s.data⟩, r5)
          | none => none
        | none => none
    else if c.toNat < 32 then none
    else
      match parseStrBody f rest with
      | some (s, r5) => some (⟨c :: s.data⟩, r5)
      | none => none

/-- Consume a run of decimal digits, returning value, count and remainder. -/
def digRun : List Char → Nat → Nat → Nat × Nat × List Char
  | c :: rest, acc, cnt =>
    if c.isDigit then digRun rest (acc * 10 + (c.toNat - 48)) (cnt + 1)
    else (acc, cnt, c :: rest)
  | [], acc, cnt => (acc, cnt, [])

/-- Fraction and exponent tail of a JSON number with integer part `i`. -/
def numTail (neg : Bool) (i : Nat) (cs : List Char) : Option (ℚ × List Char) :=
  let fr : Option (ℚ × List Char) :=
    match cs with
    | '.' :: r =>
      match r with
      | c :: _ =>
        if c.isDigit then
          let t := digRun r 0 0
          some ((i : ℚ) + (t.1 : ℚ) / (10 : ℚ) ^ t.2.1, t.2.2)
        else none
      | [] => none
    | _ => some ((i : ℚ), cs)
  match fr with
  | none => none
  | some (base, r3) =>
    match r3 with
    | c :: r4 =>
      if c = 'e' ∨ c = 'E' then
        let sr : Bool × List Char :=
          match r4 with
          | '+' :: rr => (false, rr)
          | '-' :: rr => (true, rr)
          | _ => (false, r4)
        match sr.2 with
        | d :: _ =>
          if d.isDigit then
            let t := digRun sr.2 0 0
            let mag : ℚ := if sr.1 then 1 / (10 : ℚ) ^ t.1 else (10 : ℚ) ^ t.1
            some ((if neg then -(base * mag) else base * mag), t.2.2)
          else none
        | [] => none
      else some ((if neg then -base else base), r3)
    | [] => some ((if neg then -base else base), [])

/-- Parse a JSON number per the grammar Python's decoder accepts
(`-? (0 | [1-9][0-9]*) (. [0-9]+)? ([eE][-+]?[0-9]+)?`). -/
def parseNum (cs : List Char) : Option (ℚ × List Char) :=
  let sgn : Bool × List Char :=
    match cs with
    | '-' :: r => (true, r)
    | _ => (false, cs)
  match sgn.2 with
  | c :: rest =>
    if c = '0' then numTail sgn.1 0 rest
    else if c.isDigit then
      let t := digRun (c :: rest) 0 0
      numTail sgn.1 t.1 t.2.2
    else none
  | [] => none

mutual

/-- Fuel-indexed recursive-descent parser for a JSON value, modelling
Python's `json.loads` grammar (sans NaN/Infinity literals). -/
def parseVal : Nat → List Char → Option (JValue × List Char)
  | 0, _ => none
  | f + 1, cs =>
    match skipWs cs with
    | [] => none
    | c :: rest =>
      if c = lbrace then parseObjStart f rest
      else if c = '[' then parseArrStart f rest
      else if c = '"' then
        match parseStrBody (f + 1) rest with
        | some (s, r) => some (.str s, r)
        | none => none
      else if ['n', 'u', 'l', 'l'].isPrefixOf (c :: rest) then
        some (.null, (c :: rest).drop 4)
      else if ['t', 'r', 'u', 'e'].isPrefixOf (c :: rest) then
        some (.bool true, (c :: rest).drop 4)
      else if ['f', 'a', 'l', 's', 'e'].isPrefixOf (c :: rest) then
        some (.bool false, (c :: rest).drop 5)
      else
        match parseNum (c :: rest) with
        | some (q, r) => some (.num q, r)
        | none => none

/-- Parse the remainder of an array (after `[`). -/
def parseArrStart : Nat → List Char → Option (JValue × List Char)
  | 0, _ => none
  | f + 1, cs =>
    match skipWs cs with
    | ']' :: r => some (.arr [], r)
    | _ =>
      match parseElemsNE f cs with
      | some (l, r) => some (.arr l, r)
      | none => none

/-- Parse one-or-more comma-separated array elements up to `]`. -/
def parseElemsNE : Nat → List Char → Option (List JValue × List Char)
  | 0, _ => none
  | f + 1, cs =>
    match parseVal f cs with
    | some (v, r) =>
      match skipWs r with
      | ']' :: r2 => some ([v], r2)
      | ',' :: r2 =>
        match parseElemsNE f r2 with
        | some (vs, r3) => some (v :: vs, r3)
        | none => none
      | _ => none
    | none => none

/-- Parse the remainder of an object (after the opening brace); duplicate
keys are resolved like Python dicts (last value, first position). -/
def parseObjStart : Nat → List Char → Option (JValue × List Char)
  | 0, _ => none
  | f + 1, cs =>
    match skipWs cs with
    | c :: _ =>
      if c = rbrace then some (.obj [], (skipWs cs).tail)
      else
        match parseMembersNE f cs with
        | some (ps, r2) =>
            some (.obj (ps.foldl (fun acc p => insertKey acc p.1 p.2) []), r2)
        | none => none
    | [] => none

/-- Parse one-or-more `"key": value` members up to the closing brace. -/
def parseMembersNE : Nat → List Char → Option (List (String × JValue) × List Char)
  | 0, _ => none
  | f + 1, cs =>
    match skipWs cs with
    | '"' :: r =>
      match parseStrBody (f + 1) r with
      | some (k, r2) =>
        match skipWs r2 with
        | ':' :: r3 =>
          match parseVal f r3 with
          | some (v, r4) =>
            match skipWs r4 with
            | c :: r5 =>
              if c = rbrace then some ([(k, v)], r5)
              else if c = ',' then
                match parseMembersNE f r5 with
                | some (ps, r6) => some ((k, v) :: ps, r6)
                | none => none
              else none
            | [] => none
          | none => none
        | _ => none
      | none => none
    | _ => none

end

/-- Models `json.loads` on a character list: a full parse of a single JSON
document, rejecting trailing non-whitespace as Python does. -/
def loadsChars (cs : List Char) : Option JValue :=
  match parseVal (4 * cs.length + 16) cs with
  | some (v, rest) => if skipWs rest = [] then some v else none
  | none => none

/-- Models Python's `json.loads` (returns `none` where Python raises). -/
def loads (s : String) : Option JValue := loadsChars s.data

/-- Find the text before the next closing triple-backtick fence, if any. -/
def findCloseFence : List Char → Option (List Char)
  | c1 :: c2 :: c3 :: rest =>
    if c1 = bq ∧ c2 = bq ∧ c3 = bq then some []
    else
      match findCloseFence (c2 :: c3 :: rest) with
      | some cap => some (c1 :: cap)
      | none => none
  | _ => none

/-- After an opening triple backtick, the branch of the fence regex with no
`json` tag: requires a newline then a later closing fence. -/
def tryNoJsonTail : List Char → Option (List Char)
  | '\n' :: r3 => findCloseFence r3
  | _ => none

/-- Try to match the fence pattern (three backticks, optional
case-insensitive `json`, newline, lazily captured body, three backticks)
anchored at the head of the list, with the regex backtracking behaviour. -/
def tryFenceAt : List Char → Option (List Char)
  | c1 :: c2 :: c3 :: rest =>
    if c1 = bq ∧ c2 = bq ∧ c3 = bq then
      match rest with
      | a :: b :: c :: d :: r2 =>
        if a.toLower = 'j' ∧ b.toLower = 's' ∧ c.toLower = 'o' ∧ d.toLower = 'n' then
          match r2 with
          | '\n' :: r3 =>
            match findCloseFence r3 with
            | some cap => some cap
            | none => tryNoJsonTail rest
          | _ => tryNoJsonTail rest
        else tryNoJsonTail rest
      | _ => tryNoJsonTail rest
    else none
  | _ => none

/-- Models `re.search` of the fence pattern: leftmost position wins. -/
def fenceSearch : List Char → Option (List Char)
  | [] => none
  | c :: cs =>
    match tryFenceAt (c :: cs) with
    | some cap => some cap
    | none => fenceSearch cs

/-- The response-cleaning prelude shared by all three parsing sites
(`idea_generator.py` lines 210-214, 270-274, 372-376): strip, then if the
text starts with a triple backtick extract and strip the first fenced block. -/
def cleanResponse (raw : String) : String :=
  let c := pyStrip raw
  if c.data.take 3 = [bq, bq, bq] then
    match fenceSearch c.data with
    | some cap => pyStrip ⟨cap⟩
    | none => c
  else c

/-- Index of the first occurrence of a character (Python `str.find`). -/
def firstIdx (cs : List Char) (c : Char) : Option Nat := cs.findIdx? (fun x => x == c)

/-- Index of the last occurrence of a character (Python `str.rfind`). -/
def lastIdx (cs : List Char) (c : Char) : Option Nat :=
  match firstIdx cs.reverse c with
  | some i => some (cs.length - 1 - i)
  | none => none

/-- The bracketed-substring fallback of the draft parser: take the text from
the first `o` to the last `c` (required to come later) and JSON-parse it. -/
def sliceParse (cs : List Char) (o c : Char) : Option JValue :=
  match firstIdx cs o, lastIdx cs c with
  | some a, some b => if a < b then loadsChars ((cs.drop a).take (b - a + 1)) else none
  | _, _ => none

/-- The alternate top-level key names accepted for the idea list
(`idea_generator.py` line 244). -/
def altNames : List String :=
  ["philanthropic_ideas", "initiatives", "recommendations", "results", "items"]

/-- First alternate key whose value is a list. -/
def findAlt : List String → List (String × JValue) → Option (List JValue)
  | [], _ => none
  | a :: more, m =>
    match pyGet m a with
    | some (.arr l) => some l
    | _ => findAlt more m

/-- Last-resort scan (`idea_generator.py` lines 249-253): first top-level
key whose value is a list that is empty or whose first element is a dict. -/
def findScan : List (String × JValue) → Option (List JValue)
  | [] => none
  | (_, v) :: rest =>
    match v with
    | .arr [] => some []
    | .arr (x :: xs) =>
      match x with
      | .obj _ => some (x :: xs)
      | _ => findScan rest
    | _ => findScan rest

/-- Models the Python idiom `v or []`. -/
def pyOrEmptyList (v : JValue) : JValue := if pyTruthy v then v else .arr []

/-- Alternate-key step (`idea_generator.py` lines 243-247): when the value
`l0` bound so far is falsy, rebind to the first alternate key's list. -/
def extractAltStep (m : List (String × JValue)) (l0 : JValue) : JValue :=
  if pyTruthy l0 then l0
  else
    match findAlt altNames m with
    | some l => .arr l
    | none => l0

/-- Last-resort step (`idea_generator.py` lines 248-253): when the value
`l1` bound so far is still falsy, rebind to the first scanned list. -/
def extractScanStep (m : List (String × JValue)) (l1 : JValue) : JValue :=
  if pyTruthy l1 then l1
  else
    match findScan m with
    | some l => .arr l
    | none => l1

/-- Key extraction step of the draft parser (`idea_generator.py` lines
239-255): the value bound to `ideas_list` given the parsed object —
`obj.get("ideas", []) or []`, then the alternate keys, then the scan. -/
def extractIdeas : JValue → JValue
  | .obj m =>
      extractScanStep m (extractAltStep m (pyOrEmptyList (pyGetD m ("ideas") (.arr []))))
  | .arr l => .arr l
  | _ => .arr []

/-- The draft response-parsing stage (`idea_generator.py` lines 209-255):
fence strip, direct parse, array-slice fallback, object-slice fallback, then
key extraction; the value finally bound to `ideas_list`. -/
def parse_ideas (raw : String) : JValue :=
  let clean := (cleanResponse raw).data
  let obj : Option JValue :=
    match loadsChars clean with
    | some v => some v
    | none =>
      match sliceParse clean '[' ']' with
      | some v => some v
      | none => sliceParse clean lbrace rbrace
  match obj with
  | some v => extractIdeas v
  | none => .arr []

/-- The rescue-branch parsing (`idea_generator.py` lines 270-282): `prev` is
the value `ideas_list` had before the rescue (kept when the parsed value has
the wrong shape; replaced by `[]` when parsing raises). -/
def parseRescue (prev : JValue) (raw2 : String) : JValue :=
  match loads (cleanResponse raw2) with
  | none => .arr []
  | some (.arr l) => .arr l
  | some (.obj m) =>
    match pyGet m ("ideas") with
    | some v => pyOrEmptyList v
    | none => prev
  | some _ => prev

/-- Embeds `_refine_ideas_with_rubric` (`idea_generator.py` lines 327-385) with the
network abstracted: `refineRaw` is the content returned by its internal
`_call_llm` call (the prompt text built from `topics`/`deep_research` does
not affect the result shape, so it is not modelled). An empty draft returns
`[]` before any call; unparseable or wrongly-shaped output returns the
draft. -/
def _refine_ideas_with_rubric (draft_ideas : JValue) (refineRaw : String) : JValue :=
  if pyTruthy draft_ideas = false then .arr []
  else
    match loads (cleanResponse refineRaw) with
    | some (.obj m) =>
      match pyGet m ("ideas") with
      | some (.arr l) => .arr l
      | _ => draft_ideas
    | some (.arr l) => .arr l
    | some _ => draft_ideas
    | none => draft_ideas

/-- Whether `needle` occurs as a contiguous sublist of `hay`. -/
def occursIn (needle : List Char) : List Char → Bool
  | [] => needle.isEmpty
  | c :: rest => needle.isPrefixOf (c :: rest) || occursIn needle rest

/-- Models Python's substring test `needle in hay`. -/
def strContains (hay needle : String) : Bool := occursIn needle.data hay.data

/-- The animal-topic keyword set (`idea_generator.py` lines 132, 297, 333). -/
def animalKeywords : List String :=
  ["animal", "welfare", "broiler", "fish", "shrimp", "layer", "poultry", "swine",
   "aquaculture"]

/-- The global-health keyword set (`idea_generator.py` lines 298-301). -/
def healthKeywords : List String :=
  ["health", "malaria", "tb", "hiv", "statin", "polypill", "oxygen", "diarrhea",
   "ors", "zinc", "lead", "air pollution", "respirator", "uv", "smc", "vaccin",
   "tpt", "therapy", "cholera", "wastewater", "gbs", "e-cooking", "pm2.5"]

/-- Models Python's `str.lower()` (ASCII case folding). -/
def pyLower (s : String) : String := ⟨s.data.map Char.toLower⟩

/-- Embeds `is_animal`: some animal keyword occurs in the lowercased topics. -/
def isAnimalTopics (topics : String) : Bool :=
  animalKeywords.any (fun k => strContains (pyLower topics) k)

/-- Embeds `is_global_health`: some health keyword occurs in the lowercased topics. -/
def isGlobalHealth (topics : String) : Bool :=
  healthKeywords.any (fun k => strContains (pyLower topics) k)

/-- The closed metric enumeration (`idea_generator.py` line 302). -/
def allowedMetrics : List String := ["DALY", "WALY", "WELBY", "log income", "CO2"]

/-- The metric-tag coercion (`idea_generator.py` lines 304-306). -/
def coerceMetric (topics mt : String) : String :=
  if mt ∈ allowedMetrics then mt
  else if isGlobalHealth topics then "DALY"
  else if isAnimalTopics topics then "WALY"
  else mt

/-- The per-record normalization body (`idea_generator.py` lines 303-323);
`.get` on a non-dict raises `AttributeError`. -/
def normalizeIdea (topics : String) (show_reasoning : Bool) (v : JValue) :
    Except String (List (String × JValue)) :=
  match v with
  | .obj m =>
    .ok [("title", pyGetD m ("title") (.str "Idea")),
         ("description", pyGetD m ("description") (.str "")),
         ("instrument", pyGetD m ("instrument") (.str "")),
         ("metric_tag",
          .str (coerceMetric topics (pyStrip (pyStr (pyGetD m ("metric_tag") (.str "")))))),
         ("total_cost", pyGetD m ("total_cost") (.str "")),
         ("ce_vs_benchmark", pyGetD m ("ce_vs_benchmark") (.str "")),
         ("candidates", pyOrEmptyList (pyGetD m ("candidates") (.arr []))),
         ("sources", pyOrEmptyList (pyGetD m ("sources") (.arr []))),
         ("botec", pyGetD m ("botec") (.obj [])),
         ("reasoning", if show_reasoning then pyGetD m ("reasoning") (.obj []) else .obj []),
         ("doers", pyOrEmptyList (pyGetD m ("doers") (.arr []))),
         ("doer_archetype", pyGetD m ("doer_archetype") (.str "")),
         ("debate", pyGetD m ("debate") (.obj []))]
  | _ => .error ("AttributeError: object has no attribute get")

/-- The accumulate-or-raise loop over records (Python `for`/`append`). -/
def mapE (f : JValue → Except String (List (String × JValue))) :
    List JValue → Except String (List (List (String × JValue)))
  | [] => .ok []
  | x :: xs =>
    match f x with
    | .ok y =>
      match mapE f xs with
      | .ok ys => .ok (y :: ys)
      | .error e => .error e
    | .error e => .error e

/-- Models Python iteration over the sliced value: lists yield elements,
strings yield one-character strings, dicts yield their keys, the rest raise. -/
def iterElems : JValue → Except String (List JValue)
  | .arr l => .ok l
  | .str s => .ok (s.data.map (fun c => .str ⟨[c]⟩))
  | .obj m => .ok (m.map (fun p => .str p.1))
  | _ => .error ("TypeError: object is not iterable")

/-- The whole normalization loop (`idea_generator.py` lines 295-323). -/
def normalizeStage (topics : String) (show_reasoning : Bool) (v : JValue) :
    Except String (List (List (String × JValue))) :=
  match iterElems v with
  | .ok elems => mapE (normalizeIdea topics show_reasoning) elems
  | .error e => .error e

/-- A normalized ingested document (every field a string, per the spec's
Document invariant). -/
structure Doc where
  source : String := ""
  title : String := ""
  url : String := ""
  summary : String := ""
  published : String := ""
  type : String := ""

/-- Embeds `PRIORITY_SOURCES` (`idea_generator.py` lines 11-17). -/
def PRIORITY_SOURCES : List String :=
  ["Open Philanthropy", "Animal Charity Evaluators", "Wild Animal Initiative",
   "FAOSTAT", "Fishcount"]

/-- Embeds `_priority` (`idea_generator.py` lines 44-46). -/
def prioKey (d : Doc) : Nat := if pyStrip d.source ∈ PRIORITY_SOURCES then 0 else 1

/-- Stable insertion used by the model of Python's `sorted`: an element is
placed before the first later element with a strictly larger key, so
original order is preserved among equal keys. -/
def insertStable (key : Doc → Nat) (x : Doc) : List Doc → List Doc
  | [] => [x]
  | y :: ys => if key x ≤ key y then x :: y :: ys else y :: insertStable key x ys

/-- Models Python's stable `sorted(l, key=key)` for natural-number keys. -/
def pySorted (key : Doc → Nat) : List Doc → List Doc
  | [] => []
  | x :: xs => insertStable key x (pySorted key xs)

/-- One rendered evidence block (`idea_generator.py` lines 53-56). -/
def renderBlock (d : Doc) : String :=
  "- " ++ d.title ++ "\n  " ++ (⟨d.summary.data.take 1000⟩ : String) ++
    "\n  Source: " ++ d.url ++ "\n"

/-- The accumulation loop (`idea_generator.py` lines 52-60), returning the
documents whose block is included: stops before the first block that would
push the running total of block lengths past `max_chars`. -/
def acceptedDocs (max_chars : Nat) : List Doc → Nat → List Doc
  | [], _ => []
  | d :: ds, used =>
    let s := renderBlock d
    if max_chars < used + s.length then []
    else d :: acceptedDocs max_chars ds (used + s.length)

/-- The documents rendered by `_build_context`: priority-stable-sorted,
capped at 50, then budget-truncated. -/
def contextDocs (documents : List Doc) (max_chars : Nat) : List Doc :=
  acceptedDocs max_chars ((pySorted prioKey documents).take 50) 0

/-- Embeds `_build_context` (`idea_generator.py` lines 42-61). -/
def _build_context (documents : List Doc) (max_chars : Nat := 12000) : String :=
  pyJoin "\n" ((contextDocs documents max_chars).map renderBlock)

/-- The parameters of one chat-completion request; the messages differ per
call site and are abstracted by the `CallSite` tag below. -/
structure CallReq where
  model : String
  temperature : ℚ
  maxTokens : Nat

/-- Embeds `models_to_try` (`idea_generator.py` lines 73-83): the env-configured
model (default `gpt-5`) first, then the fixed fallback chain. -/
def modelsToTry (envModel : Option String) : List String :=
  [envModel.getD ("gpt-5"), "gpt-5", "gpt-5o", "o3", "gpt-4.1", "gpt-4.1-mini",
   "gpt-4o", "gpt-4o-mini-2024-07-18", "gpt-3.5-turbo-0125"]

/-- The candidate loop of `_call_llm` (`idea_generator.py` lines 84-110):
empty names are skipped, a raised call (`none`) moves to the next candidate,
a successful call returns `content or "[]"` immediately. -/
def callLoop (attempt : CallReq → Option String) (maxTokens : Nat)
    (temperature : ℚ) : List String → String
  | [] => "[]"
  | m :: rest =>
    if m.isEmpty then callLoop attempt maxTokens temperature rest
    else
      match attempt ⟨m, temperature, maxTokens⟩ with
      | none => callLoop attempt maxTokens temperature rest
      | some content => if content.isEmpty then "[]" else content

/-- Embeds `_call_llm` (`idea_generator.py` lines 64-110) with the HTTP transport
abstracted by `attempt` (`none` models the call raising; the inner
response-format retry is collapsed into one outcome per candidate). Note the
`model` parameter is bound but never read by the body, exactly as in the
source. -/
def _call_llm (attempt : CallReq → Option String) (envModel : Option String)
    (model : String := "gpt-4o-mini") (max_tokens : Nat := 2000)
    (temperature : ℚ := 0.6) : String :=
  callLoop attempt max_tokens temperature (modelsToTry envModel)

/-- The three LLM call sites of the orchestrator; each builds different
messages, so the oracle may answer each differently. -/
inductive CallSite where
  | draft : CallSite
  | rescue : CallSite
  | refine : CallSite

/-- Embeds `os.getenv("OPENAI_MODEL") or ("o3" if deep_research else "gpt-4o")`
(`idea_generator.py` lines 202 and 369). -/
def defaultModel (envModel : Option String) (deep_research : Bool) : String :=
  match envModel with
  | some s => if s.isEmpty then (if deep_research then "o3" else "gpt-4o") else s
  | none => if deep_research then "o3" else "gpt-4o"

/-- Embeds `run_temperature` (`idea_generator.py` line 203). -/
def runTemperature (deep_research : Bool) : ℚ := if deep_research then 0.2 else 0.6

/-- Embeds `max_tokens` (`idea_generator.py` line 204). -/
def runMaxTokens (deep_research : Bool) : Nat := if deep_research then 3000 else 2000

/-- The dictionary returned by `synthesize_ideas`. -/
structure SynthResult where
  ideas : List (List (String × JValue))
  raw : String
  docs_count : Nat

/-- The tail of `synthesize_ideas` after draft/rescue parsing
(`idea_generator.py` lines 285-324): cap the parsed list, refine it with the
rubric, fall back (twice, as written) to the capped draft when refinement is
falsy, cap again, normalize each record, and assemble the result. -/
def synthTail (topics : String) (show_reasoning : Bool) (num_ideas : Nat)
    (docsLen : Nat) (ideas_list : JValue) (raw1 : String) (refineRaw : String) :
    Except String SynthResult :=
  match pySlice ideas_list num_ideas with
  | .error e => .error e
  | .ok draftCapped =>
    match (if pyTruthy (_refine_ideas_with_rubric draftCapped refineRaw) = false ∧
        pyTruthy ideas_list then pySlice ideas_list num_ideas
      else .ok (_refine_ideas_with_rubric draftCapped refineRaw)) with
    | .error e => .error e
    | .ok refined1 =>
      match (if pyTruthy refined1 = false ∧ pyTruthy ideas_list then
          pySlice ideas_list num_ideas
        else .ok refined1) with
      | .error e => .error e
      | .ok refined2 =>
        match pySlice refined2 num_ideas with
        | .error e => .error e
        | .ok target =>
          match normalizeStage topics show_reasoning target with
          | .error e => .error e
          | .ok normed => .ok ⟨normed, raw1, docsLen⟩

/-- Embeds `synthesize_ideas` (`idea_generator.py` lines 113-324), with network
calls abstracted by `oracle`, the `OPENAI_MODEL` variable by `envModel` and
the `OPENAI_API_KEY` presence check by `apiKeySet`; `.error` models a raised
exception. -/
def synthesize_ideas (oracle : CallSite → CallReq → Option String)
    (envModel : Option String) (apiKeySet : Bool) (topics : String)
    (documents : List Doc) (num_ideas : Nat := 25)
    (show_reasoning : Bool := false) (deep_research : Bool := false) :
    Except String SynthResult :=
  if apiKeySet = false then .error ("OPENAI_API_KEY not set")
  else
    let raw := _call_llm (oracle .draft) envModel (defaultModel envModel deep_research)
      (runMaxTokens deep_research) (runTemperature deep_research)
    let ideas0 := parse_ideas raw
    let pr : JValue × String :=
      if pyTruthy ideas0 then (ideas0, raw)
      else
        let raw2 := _call_llm (oracle .rescue) envModel
        let ideas2 := parseRescue ideas0 raw2
        (ideas2, if pyTruthy ideas2 then raw else raw2)
    synthTail topics show_reasoning num_ideas documents.length pr.1 pr.2
      (_call_llm (oracle .refine) envModel (defaultModel envModel deep_research)
        (runMaxTokens deep_research) 0.2)

/-- Total length of a list of strings. -/
def sumLen (l : List String) : Nat := (l.map String.length).sum

theorem sumLen_nil : sumLen [] = 0 := rfl

theorem sumLen_cons (x : String) (l : List String) :
    sumLen (x :: l) = x.length + sumLen l := by
  simp [sumLen]

theorem acceptedDocs_sum_le (mc : Nat) :
    ∀ (l : List Doc) (used : Nat),
      used + sumLen ((acceptedDocs mc l used).map renderBlock) ≤ mc ∨
        acceptedDocs mc l used = [] := by
  intro l
  induction l with
  | nil => intro used; right; rfl
  | cons d ds ih =>
    intro used
    by_cases h : mc < used + (renderBlock d).length
    · right
      simp [acceptedDocs, h]
    · left
      have hle : used + (renderBlock d).length ≤ mc := Nat.le_of_not_lt h
      have hstep : acceptedDocs mc (d :: ds) used
          = d :: acceptedDocs mc ds (used + (renderBlock d).length) := by
        simp [acceptedDocs, h]
      rw [hstep, List.map_cons, sumLen_cons]
      rcases ih (used + (renderBlock d).length) with h2 | h2
      · omega
      · rw [h2]
        simp only [List.map_nil, sumLen_nil]
        omega

theorem acceptedDocs_length_le (mc : Nat) :
    ∀ (l : List Doc) (used : Nat), (acceptedDocs mc l used).length ≤ l.length := by
  intro l
  induction l with
  | nil => intro used; simp [acceptedDocs]
  | cons d ds ih =>
    intro used
    by_cases h : mc < used + (renderBlock d).length
    · simp [acceptedDocs, h]
    · simp only [acceptedDocs, if_neg h, List.length_cons]
      exact Nat.succ_le_succ (ih _)

theorem pyJoin_nl_length :
    ∀ (parts : List String), (pyJoin "\n" parts).length ≤ sumLen parts + parts.length - 1 := by
  intro parts
  induction parts with
  | nil => simp [pyJoin, sumLen]
  | cons x rest ih =>
    cases rest with
    | nil => simp [pyJoin, sumLen]
    | cons y ys =>
      have h1 : pyJoin "\n" (x :: y :: ys) = x ++ "\n" ++ pyJoin "\n" (y :: ys) := rfl
      have h2 : (x ++ "\n" ++ pyJoin "\n" (y :: ys)).length
          = x.length + 1 + (pyJoin "\n" (y :: ys)).length := by
        rw [String.length_append, String.length_append]
        rfl
      rw [h1, h2, sumLen_cons]
      simp only [List.length_cons] at ih ⊢
      omega

/-- Claim C3 (amended): the running total of block lengths kept by
`_build_context` never exceeds `max_chars` (accumulation stops before any
block that would push it past, so truncation is at block boundaries), but
the newline separators inserted by the final join are not counted in that
total, so the returned string may exceed `max_chars` by up to 49 characters
(one per additional accepted block, at most 50 blocks). -/
theorem buildContext_cap (documents : List Doc) (max_chars : Nat) :
    sumLen ((contextDocs documents max_chars).map renderBlock) ≤ max_chars ∧
      (_build_context documents max_chars).length ≤ max_chars + 49 := by
  have hsum : sumLen ((contextDocs documents max_chars).map renderBlock) ≤ max_chars := by
    rcases acceptedDocs_sum_le max_chars ((pySorted prioKey documents).take 50) 0 with h | h
    · simpa [contextDocs] using h
    · simp [contextDocs, h, sumLen]
  refine ⟨hsum, ?_⟩
  have hlen : (contextDocs documents max_chars).length ≤ 50 := by
    have h1 := acceptedDocs_length_le max_chars ((pySorted prioKey documents).take 50) 0
    have h2 : ((pySorted prioKey documents).take 50).length ≤ 50 := by
      simp
    exact le_trans h1 h2
  have hjoin := pyJoin_nl_length ((contextDocs documents max_chars).map renderBlock)
  have : ((contextDocs documents max_chars).map renderBlock).length ≤ 50 := by
    simpa using hlen
  simp only [_build_context]
  omega

/-- Claim C3 counterexample: with 21 blank documents (each rendering to a
17-character block) and `max_chars = 340`, twenty blocks are accepted (sum
exactly 340) and the join adds 19 uncounted newlines, so the result is 359
characters: more than `max_chars` plus even the whole rejected block. -/
theorem buildContext_cap_counterexample :
    (_build_context (List.replicate 21 ({} : Doc)) 340).length = 359 ∧
      340 + (renderBlock ({} : Doc)).length < 359 := by
  constructor
  · set_option maxRecDepth 100000 in rfl
  · decide

theorem insertStable_key_zero (key : Doc → Nat) (x : Doc) (hx : key x = 0) :
    ∀ l, insertStable key x l = x :: l := by
  intro l
  cases l with
  | nil => rfl
  | cons y ys => simp [insertStable, hx]

theorem insertStable_key_one (key : Doc → Nat) (x : Doc) (hx : key x = 1) :
    ∀ (A B : List Doc), (∀ a ∈ A, key a = 0) → (∀ b ∈ B, key b = 1) →
      insertStable key x (A ++ B) = A ++ x :: B := by
  intro A
  induction A with
  | nil =>
    intro B _ hB
    cases B with
    | nil => rfl
    | cons b bs =>
      have : key b = 1 := hB b (by simp)
      simp [insertStable, hx, this]
  | cons a A' ih =>
    intro B hA hB
    have ha : key a = 0 := hA a (by simp)
    have hlt : ¬ key x ≤ key a := by omega
    have hstep : insertStable key x ((a :: A') ++ B)
        = a :: insertStable key x (A' ++ B) := by
      rw [List.cons_append]
      simp [insertStable, if_neg hlt]
    rw [hstep, ih B (fun a' ha' => hA a' (by simp [ha'])) hB, List.cons_append]

theorem pySorted_partition (p : Doc → Bool) (key : Doc → Nat)
    (hkey : ∀ d, key d = if p d then 0 else 1) :
    ∀ l : List Doc, pySorted key l = l.filter p ++ l.filter (fun d => !p d) := by
  intro l
  induction l with
  | nil => rfl
  | cons x xs ih =>
    by_cases hx : p x
    · have hk : key x = 0 := by simp [hkey, hx]
      simp only [pySorted, ih, insertStable_key_zero key x hk]
      simp [List.filter_cons, hx]
    · have hk : key x = 1 := by simp [hkey, hx]
      have h0 : ∀ a ∈ xs.filter p, key a = 0 := by
        intro a ha
        have := List.of_mem_filter ha
        simp [hkey, this]
      have h1 : ∀ b ∈ xs.filter (fun d => !p d), key b = 1 := by
        intro b hb
        have := List.of_mem_filter hb
        simp only [Bool.not_eq_true'] at this
        simp [hkey, this]
      simp only [pySorted, ih, insertStable_key_one key x hk _ _ h0 h1]
      simp [List.filter_cons, hx]

theorem acceptedDocs_isTake (mc : Nat) :
    ∀ (l : List Doc) (used : Nat), ∃ k, acceptedDocs mc l used = l.take k := by
  intro l
  induction l with
  | nil => intro used; exact ⟨0, rfl⟩
  | cons d ds ih =>
    intro used
    by_cases h : mc < used + (renderBlock d).length
    · exact ⟨0, by simp [acceptedDocs, h]⟩
    · obtain ⟨k, hk⟩ := ih (used + (renderBlock d).length)
      exact ⟨k + 1, by simp [acceptedDocs, if_neg h, hk]⟩

/-- Claim C4: the documents rendered by `_build_context` are an initial
segment of the priority-partitioned sequence: the priority-source documents
(in their original relative order) as a group, followed by the remaining
documents (in their original relative order); hence priority documents come
first and each group keeps `D`'s order. -/
theorem buildContext_priority_stable (documents : List Doc) (max_chars : Nat) :
    _build_context documents max_chars
        = pyJoin "\n" ((contextDocs documents max_chars).map renderBlock) ∧
      ∃ k, contextDocs documents max_chars
        = ((documents.filter fun d => pyStrip d.source ∈ PRIORITY_SOURCES) ++
            (documents.filter fun d => ¬ pyStrip d.source ∈ PRIORITY_SOURCES)).take k := by
  refine ⟨rfl, ?_⟩
  have hpart := pySorted_partition (fun d => pyStrip d.source ∈ PRIORITY_SOURCES) prioKey
    (fun d => by
      by_cases h : pyStrip d.source ∈ PRIORITY_SOURCES <;> simp [prioKey, h]) documents
  obtain ⟨k, hk⟩ := acceptedDocs_isTake max_chars ((pySorted prioKey documents).take 50) 0
  refine ⟨min k 50, ?_⟩
  simp only [← decide_not] at hpart
  rw [contextDocs, hk, hpart, List.take_take]

/-- Modelled from the amended claim C2 text: parse fallbacks in the fixed
order — direct JSON parse of the fence-stripped text, then
first-`[`-to-last-`]` array extraction, then brace-to-brace object
extraction. -/
def parseCascadeSpec (clean : List Char) : Option JValue :=
  match loadsChars clean with
  | some v => some v
  | none =>
    match sliceParse clean '[' ']' with
    | some v => some v
    | none => sliceParse clean lbrace rbrace

/-- Modelled from the amended claim C2 text: after the canonical key fails,
the first alternate key holding a sequence is selected — later alternates
are never consulted — and that sequence is the result when non-empty; an
empty selection, like the absence of any sequence-valued alternate, falls
through to the scan: the first top-level key holding a sequence that is
empty or starts with a mapping; otherwise the empty sequence. -/
def altOrScanSpec (m : List (String × JValue)) : JValue :=
  match findAlt altNames m with
  | some (x :: xs) => .arr (x :: xs)
  | _ =>
    match findScan m with
    | some l => .arr l
    | none => .arr []

/-- Modelled from the amended claim C2 text: the canonical key `ideas` is
consulted first and its value returned as-is whenever truthy — even when it
is not a sequence; a falsy or absent value falls through to the alternate
keys and the scan. -/
def ideasFromObjSpec (m : List (String × JValue)) : JValue :=
  match pyGet m ("ideas") with
  | some v => if pyTruthy v then v else altOrScanSpec m
  | none => altOrScanSpec m

/-- Modelled from the amended claim C2 text: the whole parsing stage; a
parsed array is the result itself, a parsed scalar yields the empty
sequence, and total parse failure yields the empty sequence. -/
def parseIdeasSpec (raw : String) : JValue :=
  match parseCascadeSpec (cleanResponse raw).data with
  | none => .arr []
  | some (.arr l) => .arr l
  | some (.obj m) => ideasFromObjSpec m
  | some _ => .arr []

theorem extractSteps_empty (m : List (String × JValue)) :
    extractScanStep m (extractAltStep m (.arr [])) = altOrScanSpec m := by
  have he : pyTruthy (.arr ([] : List JValue)) = false := rfl
  rw [extractAltStep, he]
  simp only [Bool.false_eq_true, if_false]
  cases hfa : findAlt altNames m with
  | none =>
    rw [extractScanStep, he]
    simp only [Bool.false_eq_true, if_false, altOrScanSpec, hfa]
  | some l =>
    cases l with
    | nil =>
      rw [extractScanStep, he]
      simp only [Bool.false_eq_true, if_false, altOrScanSpec, hfa]
    | cons x xs =>
      have ht : pyTruthy (.arr (x :: xs)) = true := rfl
      rw [extractScanStep, ht]
      simp only [if_true, altOrScanSpec, hfa]

theorem extractIdeas_obj (m : List (String × JValue)) :
    extractIdeas (.obj m) = ideasFromObjSpec m := by
  rw [show extractIdeas (.obj m)
      = extractScanStep m (extractAltStep m (pyOrEmptyList (pyGetD m ("ideas") (.arr []))))
    from rfl]
  cases hg : pyGet m ("ideas") with
  | none =>
    have h0 : pyOrEmptyList (pyGetD m ("ideas") (.arr [])) = .arr [] := by
      rw [pyGetD, hg]
      rfl
    rw [h0, extractSteps_empty, ideasFromObjSpec, hg]
  | some v =>
    by_cases hv : pyTruthy v = true
    · have h0 : pyOrEmptyList (pyGetD m ("ideas") (.arr [])) = v := by
        simp [pyGetD, hg, pyOrEmptyList, hv]
      rw [h0]
      simp [extractAltStep, extractScanStep, ideasFromObjSpec, hg, hv]
    · have h0 : pyOrEmptyList (pyGetD m ("ideas") (.arr [])) = .arr [] := by
        simp [pyGetD, hg, pyOrEmptyList, hv]
      rw [h0, extractSteps_empty, ideasFromObjSpec, hg]
      simp [hv]

/-- Claim C2 (amended): the response-parsing stage is total (it returns a
value for every string and never raises) and its fallbacks run in the fixed
order: direct JSON parse of the fence-stripped text, then
first-`[`-to-last-`]` array extraction, then brace-to-brace object
extraction; from a parsed object the canonical key `ideas` is consulted
first and its truthy value is returned as-is even when it is not a sequence,
then the fixed alternate key names — the alternate step commits to the first
alternate whose value is a sequence, even an empty one, in which case it
falls through — then the first top-level key whose value is a sequence that
is empty or whose first element is a mapping, else the empty sequence. -/
theorem parseIdeas_matches_spec (raw : String) : parse_ideas raw = parseIdeasSpec raw := by
  simp only [parse_ideas, parseIdeasSpec, parseCascadeSpec]
  cases h1 : loadsChars (cleanResponse raw).data with
  | some v => cases v <;> first | rfl | exact extractIdeas_obj _
  | none =>
    cases h2 : sliceParse (cleanResponse raw).data '[' ']' with
    | some v => cases v <;> first | rfl | exact extractIdeas_obj _
    | none =>
      cases h3 : sliceParse (cleanResponse raw).data lbrace rbrace with
      | some v => cases v <;> first | rfl | exact extractIdeas_obj _
      | none => rfl

/-- Claim C2 counterexample: the claim as stated is false — on the input
object whose key `ideas` holds the number 7 the stage returns that number,
not a sequence of records; on an object whose only key holds the sequence
`["a"]` the claimed first-sequence-valued-key fallback would return that
sequence, but the stage returns the empty sequence because the scan
requires a first element that is a mapping; and on an object whose
alternate key `initiatives` holds an empty sequence while the later
alternate `recommendations` holds a record, the stage returns the empty
sequence — the alternate step commits to the first sequence-valued
alternate even when empty and never consults later alternates. -/
theorem parseIdeas_counterexample :
    parse_ideas ("\x7b\"ideas\": 7\x7d") = .num 7 ∧
      parse_ideas ("\x7b\"foo\": [\"a\"]\x7d") = .arr [] ∧
      parse_ideas ("\x7b\"initiatives\": [], \"recommendations\": [\x7b\"x\": 1\x7d]\x7d")
        = .arr [] := by
  refine ⟨rfl, rfl, rfl⟩

theorem callLoop_allNone (attempt : CallReq → Option String) (tok : Nat) (temp : ℚ)
    (h : ∀ r, attempt r = none) : ∀ ms, callLoop attempt tok temp ms = "[]" := by
  intro ms
  induction ms with
  | nil => rfl
  | cons m rest ih =>
    by_cases hm : m.isEmpty <;> simp [callLoop, hm, h, ih]

theorem callLoop_congr (a1 a2 : CallReq → Option String) (tok : Nat) (temp : ℚ)
    (h : ∀ m, a1 ⟨m, temp, tok⟩ = a2 ⟨m, temp, tok⟩) :
    ∀ ms, callLoop a1 tok temp ms = callLoop a2 tok temp ms := by
  intro ms
  induction ms with
  | nil => rfl
  | cons m rest ih =>
    by_cases hm : m.isEmpty
    · simp [callLoop, hm, ih]
    · simp only [callLoop, hm, Bool.false_eq_true, if_false]
      rw [h m]
      cases a2 ⟨m, temp, tok⟩ <;> simp [ih]

/-- Claim C5 (amended): `_call_llm` returns the content of the first
candidate whose call succeeds — that content itself when non-empty, or the
literal `"[]"` when the successful call's content is empty, without moving
on to later candidates; raising candidates and empty model names are
skipped; when every candidate raises it returns `"[]"`, and a run with all
models unreachable then returns ideas `[]`, raw `"[]"` and the document
count from `synthesize_ideas` without an exception. -/
theorem callLlm_degrade (attempt attempt2 : CallReq → Option String)
    (oracle : CallSite → CallReq → Option String) (envModel : Option String)
    (topics : String) (documents : List Doc) (num_ideas : Nat)
    (show_reasoning deep_research : Bool) (model m : String) (tok : Nat)
    (temp : ℚ) (rest : List String) (c : String)
    (hall : ∀ r, attempt r = none)
    (horacle : ∀ site r, oracle site r = none)
    (hm : m.isEmpty = false) (hc : attempt2 ⟨m, temp, tok⟩ = some c) :
    _call_llm attempt envModel model tok temp = "[]" ∧
      synthesize_ideas oracle envModel true topics documents num_ideas show_reasoning
        deep_research = .ok ⟨[], "[]", documents.length⟩ ∧
      callLoop attempt2 tok temp (m :: rest) = (if c.isEmpty then "[]" else c) ∧
      (∀ (attempt3 : CallReq → Option String) (m3 : String) (rest3 : List String),
        attempt3 ⟨m3, temp, tok⟩ = none ∨ m3.isEmpty = true →
          callLoop attempt3 tok temp (m3 :: rest3) = callLoop attempt3 tok temp rest3) := by
  refine ⟨callLoop_allNone attempt tok temp hall _, ?_, ?_, ?_⟩
  · have hdraft : _call_llm (oracle .draft) envModel (defaultModel envModel deep_research)
        (runMaxTokens deep_research) (runTemperature deep_research) = "[]" :=
      callLoop_allNone _ _ _ (horacle .draft) _
    have hrescue : _call_llm (oracle .rescue) envModel = "[]" :=
      callLoop_allNone _ _ _ (horacle .rescue) _
    have hrefine : _call_llm (oracle .refine) envModel (defaultModel envModel deep_research)
        (runMaxTokens deep_research) 0.2 = "[]" :=
      callLoop_allNone _ _ _ (horacle .refine) _
    have hp : parse_ideas ("[]") = .arr [] := rfl
    have hq : parseRescue (.arr []) ("[]") = .arr [] := rfl
    have hr : _refine_ideas_with_rubric (.arr []) ("[]") = .arr [] := rfl
    simp [synthesize_ideas, synthTail, hdraft, hrescue, hrefine, hp, hq, hr, pyTruthy,
      pySlice, normalizeStage, iterElems, mapE]
  · simp [callLoop, hm, hc]
  · intro attempt3 m3 rest3 h3
    rcases h3 with h3 | h3 <;> simp [callLoop, h3]

/-- Witness for `callLlm_degrade` at a concrete all-failing environment. -/
theorem callLlm_degrade_witness :
    _call_llm (fun _ => none) none ("gpt-4o") 2000 (0.6 : ℚ) = "[]" ∧
      synthesize_ideas (fun _ _ => none) none true ("topics") [{}] 25 false false
        = .ok ⟨[], "[]", 1⟩ := by
  have h := callLlm_degrade (fun _ => none) (fun _ => some ("hi")) (fun _ _ => none)
    none ("topics") [{}] 25 false false ("gpt-4o") ("gpt-5") 2000 (0.6 : ℚ) [] ("hi")
    (fun _ => rfl) (fun _ _ => rfl) rfl rfl
  exact ⟨h.1, h.2.1⟩

/-- Modelled from claim C5's words: iterate the prioritized model list and
return the first successful non-empty content string. -/
def firstNonEmptySuccessAux (attempt : CallReq → Option String) (maxTokens : Nat)
    (temperature : ℚ) : List String → Option String
  | [] => none
  | m :: rest =>
    if m.isEmpty then firstNonEmptySuccessAux attempt maxTokens temperature rest
    else
      match attempt ⟨m, temperature, maxTokens⟩ with
      | some c =>
        if c.isEmpty then firstNonEmptySuccessAux attempt maxTokens temperature rest
        else some c
      | none => firstNonEmptySuccessAux attempt maxTokens temperature rest

/-- Modelled from claim C5's words, over the same prioritized model list as
`_call_llm`. -/
def firstNonEmptySuccess (attempt : CallReq → Option String) (envModel : Option String)
    (maxTokens : Nat) (temperature : ℚ) : Option String :=
  firstNonEmptySuccessAux attempt maxTokens temperature (modelsToTry envModel)

/-- An environment in which the first model (`gpt-5`) succeeds with empty
content and a later model (`gpt-5o`) succeeds with `"hello"`. -/
def c5att : CallReq → Option String := fun r =>
  if r.model = "gpt-5" then some ("")
  else if r.model = "gpt-5o" then some ("hello") else none

/-- Claim C5 counterexample: the claim as stated is false — `_call_llm`
does not return the first successful non-empty content string: when the
first candidate succeeds with empty content it returns `"[]"` at once even
though a later candidate would return `"hello"`. -/
theorem callLlm_counterexample :
    _call_llm c5att none ("gpt-4o-mini") 2000 (0.6 : ℚ) = "[]" ∧
      firstNonEmptySuccess c5att none 2000 (0.6 : ℚ) = some ("hello") := by
  constructor
  · rfl
  · rfl

/-- An environment in which `o3` (the deep-research model) would answer
`"from-o3"` but `gpt-5` (head of the hard-coded chain) answers
`"from-gpt5"`. -/
def c8att : CallReq → Option String := fun r =>
  if r.model = "gpt-5" then some ("from-gpt5")
  else if r.model = "o3" then some ("from-o3") else none

/-- Claim C8 counterexample: the claim as stated is false — with
`deep_research` selecting model `o3` (passed as `_call_llm`'s `model`
argument with temperature 0.2 and the 3000-token budget), the call still
returns the content of `gpt-5`, because `_call_llm` ignores its `model`
argument; the model actually used is not selected by the flag. -/
theorem deepResearch_counterexample :
    c8att ⟨"o3", (0.2 : ℚ), 3000⟩ = some ("from-o3") ∧
      _call_llm c8att none ("o3") 3000 (0.2 : ℚ) = "from-gpt5" ∧
      ("from-gpt5" : String) ≠ "from-o3" := by
  refine ⟨rfl, rfl, ?_⟩
  decide

/-- Claim C8 (amended): the `deep_research` flag selects the temperature
(0.2 vs 0.6), the token budget (3000 vs 2000) and the preferred-model
argument (`o3` vs `gpt-4o`, absent an environment override) computed for the
draft generation call, and temperature and budget are what the issued
requests carry; but the result of `_call_llm` is independent of its `model`
argument — the models attempted are always the fixed chain headed by the
environment-configured model. -/
theorem deepResearch_selects :
    runTemperature true = 0.2 ∧ runTemperature false = 0.6 ∧
      runMaxTokens true = 3000 ∧ runMaxTokens false = 2000 ∧
      defaultModel none true = "o3" ∧ defaultModel none false = "gpt-4o" ∧
      (∀ (attempt : CallReq → Option String) (envModel : Option String)
          (m1 m2 : String) (tok : Nat) (temp : ℚ),
        _call_llm attempt envModel m1 tok temp = _call_llm attempt envModel m2 tok temp) ∧
      (∀ (a1 a2 : CallReq → Option String) (envModel : Option String)
          (model : String) (tok : Nat) (temp : ℚ),
        (∀ m, a1 ⟨m, temp, tok⟩ = a2 ⟨m, temp, tok⟩) →
          _call_llm a1 envModel model tok temp = _call_llm a2 envModel model tok temp) := by
  refine ⟨rfl, rfl, rfl, rfl, rfl, rfl, fun _ _ _ _ _ _ => rfl, ?_⟩
  intro a1 a2 envModel model tok temp h
  exact callLoop_congr a1 a2 tok temp h _

/-- Witness for `deepResearch_selects` at concrete inputs. -/
theorem deepResearch_selects_witness :
    runTemperature true = 0.2 ∧
      _call_llm (fun _ => none) none ("o3") 3000 (0.2 : ℚ)
        = _call_llm (fun _ => none) none ("gpt-4o") 3000 (0.2 : ℚ) ∧
      _call_llm (fun _ => none) none ("x") 5 (1 : ℚ)
        = _call_llm (fun _ => none) none ("x") 5 (1 : ℚ) :=
  ⟨deepResearch_selects.1,
    deepResearch_selects.2.2.2.2.2.2.1 (fun _ => none) none ("o3") ("gpt-4o") 3000 (0.2 : ℚ),
    deepResearch_selects.2.2.2.2.2.2.2 (fun _ => none) (fun _ => none) none ("x") 5 (1 : ℚ)
      (fun _ => rfl)⟩

theorem dropTrailing_head (p : Char → Bool) (c : Char) (t : List Char)
    (hc : p c = false) :
    dropTrailing p (c :: t) = [] ∨ ∃ r, dropTrailing p (c :: t) = c :: r := by
  unfold dropTrailing
  rw [show (c :: t).reverse = t.reverse ++ [c] from by simp, List.dropWhile_append]
  by_cases he : (t.reverse.dropWhile p).isEmpty
  · simp only [he, if_true]
    right
    exact ⟨[], by simp [List.dropWhile_cons, hc]⟩
  · simp only [he, if_false]
    right
    exact ⟨(t.reverse.dropWhile p).reverse, by simp⟩

theorem frontClean_dropTrailing (p : Char → Bool) (A : List Char)
    (h : A.dropWhile p = A) : (dropTrailing p A).dropWhile p = dropTrailing p A := by
  cases A with
  | nil => rfl
  | cons c t =>
    have hc : p c = false := by
      by_contra hp
      have hp' : p c = true := by simpa using hp
      rw [List.dropWhile_cons, hp'] at h
      simp only [if_true] at h
      have := (List.dropWhile_sublist (l := t) (p := p)).length_le
      rw [h] at this
      simp at this
    rcases dropTrailing_head p c t hc with h1 | ⟨r, h1⟩
    · rw [h1]; rfl
    · rw [h1, List.dropWhile_cons, hc]
      simp

theorem pyStrip_idem (s : String) : pyStrip (pyStrip s) = pyStrip s := by
  unfold pyStrip
  have hdata : ((⟨dropTrailing isPyWs (s.data.dropWhile isPyWs)⟩ : String)).data
      = dropTrailing isPyWs (s.data.dropWhile isPyWs) := rfl
  rw [hdata]
  have hA : (s.data.dropWhile isPyWs).dropWhile isPyWs = s.data.dropWhile isPyWs := by
    rw [List.dropWhile_idempotent]
  rw [frontClean_dropTrailing isPyWs _ hA]
  congr 1
  rw [show ∀ l, dropTrailing isPyWs l = List.rdropWhile isPyWs l from fun _ => rfl,
    show ∀ l, dropTrailing isPyWs l = List.rdropWhile isPyWs l from fun _ => rfl,
    List.rdropWhile_idempotent]

theorem pyOrEmptyList_idem (v : JValue) :
    pyOrEmptyList (pyOrEmptyList v) = pyOrEmptyList v := by
  by_cases h : pyTruthy v = true
  · simp [pyOrEmptyList, h]
  · have h2 : pyOrEmptyList v = .arr [] := by simp [pyOrEmptyList, h]
    rw [h2]
    rfl

theorem coerceMetric_strip_stable (t y : String) :
    coerceMetric t (pyStrip (coerceMetric t (pyStrip y))) = coerceMetric t (pyStrip y) := by
  by_cases h1 : pyStrip y ∈ allowedMetrics
  · rw [show coerceMetric t (pyStrip y) = pyStrip y from by simp [coerceMetric, h1],
      pyStrip_idem]
    simp [coerceMetric, h1]
  · by_cases h2 : isGlobalHealth t = true
    · rw [show coerceMetric t (pyStrip y) = "DALY" from by simp [coerceMetric, h1, h2]]
      rw [show pyStrip ("DALY") = "DALY" from by decide]
      have hd : ("DALY" : String) ∈ allowedMetrics := by decide
      simp [coerceMetric, hd]
    · by_cases h3 : isAnimalTopics t = true
      · rw [show coerceMetric t (pyStrip y) = "WALY" from by
          simp [coerceMetric, h1, h2, h3]]
        rw [show pyStrip ("WALY") = "WALY" from by decide]
        have hw : ("WALY" : String) ∈ allowedMetrics := by decide
        simp [coerceMetric, hw]
      · rw [show coerceMetric t (pyStrip y) = pyStrip y from by
          simp [coerceMetric, h1, h2, h3], pyStrip_idem]
        simp [coerceMetric, h1, h2, h3]

/-- Claim C9: normalization is idempotent — when the normalization step
(with the same topics string and reasoning flag) maps a raw record `v` to
the Idea record `rec`, normalizing `rec` itself yields `rec` again. -/
theorem normalizeIdea_idem (t : String) (s : Bool) (v : JValue)
    (rec : List (String × JValue)) (h : normalizeIdea t s v = .ok rec) :
    normalizeIdea t s (.obj rec) = .ok rec := by
  cases v with
  | obj m =>
    simp only [normalizeIdea] at h
    injection h with h
    subst h
    simp only [normalizeIdea, pyGetD, pyGet]
    simp [pyStr, pyOrEmptyList_idem, coerceMetric_strip_stable]
    cases s <;> simp
  | null => exact Except.noConfusion h
  | bool b => exact Except.noConfusion h
  | num q => exact Except.noConfusion h
  | str st => exact Except.noConfusion h
  | arr l => exact Except.noConfusion h

/-- A concrete raw record for the idempotence witness. -/
def c9rec : List (String × JValue) :=
  [("title", .str "t"), ("description", .str ""), ("instrument", .str ""),
   ("metric_tag", .str ""), ("total_cost", .str ""), ("ce_vs_benchmark", .str ""),
   ("candidates", .arr []), ("sources", .arr []), ("botec", .obj []),
   ("reasoning", .obj []), ("doers", .arr []), ("doer_archetype", .str ""),
   ("debate", .obj [])]

/-- Witness for `normalizeIdea_idem` at a concrete record. -/
theorem normalizeIdea_idem_witness :
    normalizeIdea ("x") false (.obj [("title", .str "t")]) = .ok c9rec ∧
      normalizeIdea ("x") false (.obj c9rec) = .ok c9rec := by
  have h1 : normalizeIdea ("x") false (.obj [("title", .str "t")]) = .ok c9rec := rfl
  exact ⟨h1, normalizeIdea_idem ("x") false _ c9rec h1⟩

theorem mapE_mem (f : JValue → Except String (List (String × JValue))) :
    ∀ (xs : List JValue) (ys : List (List (String × JValue))),
      mapE f xs = .ok ys → ∀ y ∈ ys, ∃ x, f x = .ok y := by
  intro xs
  induction xs with
  | nil =>
    intro ys h y hy
    simp only [mapE] at h
    injection h with h
    subst h
    simp at hy
  | cons x xs ih =>
    intro ys h y hy
    cases hfx : f x with
    | error e =>
      simp only [mapE, hfx] at h
      exact Except.noConfusion h
    | ok z =>
      cases hrest : mapE f xs with
      | error e =>
        simp only [mapE, hfx, hrest] at h
        exact Except.noConfusion h
      | ok zs =>
        simp only [mapE, hfx, hrest] at h
        injection h with h
        subst h
        rcases List.mem_cons.mp hy with hy | hy
        · exact ⟨x, by rw [hy]; exact hfx⟩
        · exact ih zs hrest y hy

theorem normalizeStage_mem (t : String) (s : Bool) (v : JValue)
    (normed : List (List (String × JValue)))
    (h : normalizeStage t s v = .ok normed) :
    ∀ rec ∈ normed, ∃ u, normalizeIdea t s u = .ok rec := by
  intro rec hrec
  cases hie : iterElems v with
  | error e =>
    simp only [normalizeStage, hie] at h
    exact Except.noConfusion h
  | ok elems =>
    simp only [normalizeStage, hie] at h
    exact mapE_mem _ elems normed h rec hrec

theorem synthTail_mem (t : String) (s : Bool) (n dl : Nat) (il : JValue)
    (r1 rr : String) (res : SynthResult)
    (h : synthTail t s n dl il r1 rr = .ok res) :
    ∀ rec ∈ res.ideas, ∃ u, normalizeIdea t s u = .ok rec := by
  intro rec hrec
  unfold synthTail at h
  split at h
  · exact Except.noConfusion h
  · split at h
    · exact Except.noConfusion h
    · split at h
      · exact Except.noConfusion h
      · split at h
        · exact Except.noConfusion h
        · split at h
          · exact Except.noConfusion h
          · injection h with h
            subst h
            exact normalizeStage_mem t s _ _ (by assumption) rec hrec

theorem synthesize_ideas_mem (oracle : CallSite → CallReq → Option String)
    (envModel : Option String) (apiKeySet : Bool) (topics : String)
    (documents : List Doc) (num_ideas : Nat) (show_reasoning deep_research : Bool)
    (res : SynthResult)
    (h : synthesize_ideas oracle envModel apiKeySet topics documents num_ideas
      show_reasoning deep_research = .ok res) :
    ∀ rec ∈ res.ideas, ∃ u, normalizeIdea topics show_reasoning u = .ok rec := by
  by_cases hk : apiKeySet = false
  · rw [synthesize_ideas, if_pos hk] at h
    exact Except.noConfusion h
  · rw [synthesize_ideas, if_neg hk] at h
    exact synthTail_mem _ _ _ _ _ _ _ res h

theorem coerceMetric_cases (t mt : String) :
    coerceMetric t mt ∈ allowedMetrics ∨
      (isGlobalHealth t = false ∧ isAnimalTopics t = false ∧ coerceMetric t mt = mt) := by
  by_cases h1 : mt ∈ allowedMetrics
  · left
    simp [coerceMetric, h1]
  · by_cases h2 : isGlobalHealth t = true
    · left
      have hd : coerceMetric t mt = "DALY" := by simp [coerceMetric, h1, h2]
      rw [hd]
      decide
    · by_cases h3 : isAnimalTopics t = true
      · left
        have hw : coerceMetric t mt = "WALY" := by simp [coerceMetric, h1, h2, h3]
        rw [hw]
        decide
      · right
        refine ⟨by simpa using h2, by simpa using h3, ?_⟩
        simp [coerceMetric, h1, h2, h3]

/-- The fixed key list of a normalized Idea record
(`idea_generator.py` lines 308-322). -/
def ideaKeys : List String :=
  ["title", "description", "instrument", "metric_tag", "total_cost",
   "ce_vs_benchmark", "candidates", "sources", "botec", "reasoning", "doers",
   "doer_archetype", "debate"]

theorem normalizeIdea_fields (t : String) (s : Bool) (v : JValue)
    (rec : List (String × JValue)) (h : normalizeIdea t s v = .ok rec) :
    rec.map Prod.fst = ideaKeys ∧
      pyGet rec ("novelty_rationale") = none ∧
      (s = false → pyGet rec ("reasoning") = some (.obj [])) ∧
      ∃ mt, pyGet rec ("metric_tag") = some (.str mt) ∧
        (mt ∈ allowedMetrics ∨
          (isGlobalHealth t = false ∧ isAnimalTopics t = false)) := by
  cases v with
  | obj m =>
    simp only [normalizeIdea] at h
    injection h with h
    subst h
    refine ⟨by simp [ideaKeys], by simp [pyGet], ?_, ?_⟩
    · intro hs
      subst hs
      simp [pyGet]
    · refine ⟨coerceMetric t (pyStrip (pyStr (pyGetD m ("metric_tag") (.str "")))),
        by simp [pyGet], ?_⟩
      rcases coerceMetric_cases t (pyStrip (pyStr (pyGetD m ("metric_tag") (.str ""))))
        with hme | ⟨hh, ha, _⟩
      · exact Or.inl hme
      · exact Or.inr ⟨hh, ha⟩
  | null => exact Except.noConfusion h
  | bool b => exact Except.noConfusion h
  | num q => exact Except.noConfusion h
  | str st => exact Except.noConfusion h
  | arr l => exact Except.noConfusion h

/-- Claim C1 (amended): for every idea record returned by
`synthesize_ideas`, the `metric_tag` field is a string that lies in the
closed enumeration {DALY, WALY, WELBY, log income, CO2} unless the topics
string matches neither a health keyword nor an animal keyword (in which case
an out-of-enumeration model tag is left as produced); and when the stripped
model-supplied tag is outside the set, normalization coerces it to `DALY`
if the topics match a health keyword (health taking precedence), else to
`WALY` if they match an animal keyword, else leaves it unchanged. -/
theorem metricTag_invariant (oracle : CallSite → CallReq → Option String)
    (envModel : Option String) (apiKeySet : Bool) (topics : String)
    (documents : List Doc) (num_ideas : Nat) (show_reasoning deep_research : Bool)
    (res : SynthResult)
    (h : synthesize_ideas oracle envModel apiKeySet topics documents num_ideas
      show_reasoning deep_research = .ok res) :
    (∀ rec ∈ res.ideas, ∃ mt, pyGet rec ("metric_tag") = some (.str mt) ∧
        (mt ∈ allowedMetrics ∨
          (isGlobalHealth topics = false ∧ isAnimalTopics topics = false))) ∧
      (∀ (m : List (String × JValue)) (rec : List (String × JValue)),
        normalizeIdea topics show_reasoning (.obj m) = .ok rec →
        pyStrip (pyStr (pyGetD m ("metric_tag") (.str ""))) ∉ allowedMetrics →
        pyGet rec ("metric_tag") = some (.str
          (if isGlobalHealth topics = true then "DALY"
           else if isAnimalTopics topics = true then "WALY"
           else pyStrip (pyStr (pyGetD m ("metric_tag") (.str "")))))) := by
  constructor
  · intro rec hrec
    obtain ⟨u, hu⟩ := synthesize_ideas_mem oracle envModel apiKeySet topics documents
      num_ideas show_reasoning deep_research res h rec hrec
    exact (normalizeIdea_fields topics show_reasoning u rec hu).2.2.2
  · intro m rec hn hout
    simp only [normalizeIdea] at hn
    injection hn with hn
    subst hn
    have hc : coerceMetric topics (pyStrip (pyStr (pyGetD m ("metric_tag") (.str ""))))
        = (if isGlobalHealth topics = true then "DALY"
           else if isAnimalTopics topics = true then "WALY"
           else pyStrip (pyStr (pyGetD m ("metric_tag") (.str "")))) := by
      rw [coerceMetric, if_neg hout]
    rw [show pyGet ([("title", pyGetD m ("title") (.str "Idea")),
        ("description", pyGetD m ("description") (.str "")),
        ("instrument", pyGetD m ("instrument") (.str "")),
        ("metric_tag", .str (coerceMetric topics
          (pyStrip (pyStr (pyGetD m ("metric_tag") (.str "")))))),
        ("total_cost", pyGetD m ("total_cost") (.str "")),
        ("ce_vs_benchmark", pyGetD m ("ce_vs_benchmark") (.str "")),
        ("candidates", pyOrEmptyList (pyGetD m ("candidates") (.arr []))),
        ("sources", pyOrEmptyList (pyGetD m ("sources") (.arr []))),
        ("botec", pyGetD m ("botec") (.obj [])),
        ("reasoning", if show_reasoning then pyGetD m ("reasoning") (.obj [])
          else .obj []),
        ("doers", pyOrEmptyList (pyGetD m ("doers") (.arr []))),
        ("doer_archetype", pyGetD m ("doer_archetype") (.str "")),
        ("debate", pyGetD m ("debate") (.obj []))]) ("metric_tag")
      = some (.str (coerceMetric topics
          (pyStrip (pyStr (pyGetD m ("metric_tag") (.str "")))))) from by simp [pyGet]]
    rw [hc]

/-- Oracle whose draft response carries one idea with an in-enumeration
metric tag; all other calls raise. -/
def c1oracle : CallSite → CallReq → Option String := fun site _ =>
  match site with
  | .draft => some ("\x7b\"ideas\": [\x7b\"metric_tag\": \"DALY\"\x7d]\x7d")
  | _ => none

/-- The normalized record produced by `c1oracle`'s draft idea. -/
def c1rec : List (String × JValue) :=
  [("title", .str "Idea"), ("description", .str ""), ("instrument", .str ""),
   ("metric_tag", .str "DALY"), ("total_cost", .str ""), ("ce_vs_benchmark", .str ""),
   ("candidates", .arr []), ("sources", .arr []), ("botec", .obj []),
   ("reasoning", .obj []), ("doers", .arr []), ("doer_archetype", .str ""),
   ("debate", .obj [])]

/-- The normalized record for a raw record whose tag `q` is outside the
enumeration under topics matching no keyword. -/
def c1qrec : List (String × JValue) :=
  [("title", .str "Idea"), ("description", .str ""), ("instrument", .str ""),
   ("metric_tag", .str "q"), ("total_cost", .str ""), ("ce_vs_benchmark", .str ""),
   ("candidates", .arr []), ("sources", .arr []), ("botec", .obj []),
   ("reasoning", .obj []), ("doers", .arr []), ("doer_archetype", .str ""),
   ("debate", .obj [])]

/-- Witness for `metricTag_invariant` at a concrete run. -/
theorem metricTag_invariant_witness :
    (∃ mt, pyGet c1rec ("metric_tag") = some (.str mt) ∧
        (mt ∈ allowedMetrics ∨
          (isGlobalHealth ("x") = false ∧ isAnimalTopics ("x") = false))) ∧
      pyGet c1qrec ("metric_tag") = some (.str "q") := by
  have h : synthesize_ideas c1oracle none true ("x") [] 25 false false
      = .ok ⟨[c1rec], "\x7b\"ideas\": [\x7b\"metric_tag\": \"DALY\"\x7d]\x7d", 0⟩ := by
    set_option maxRecDepth 100000 in rfl
  have h2 := metricTag_invariant c1oracle none true ("x") [] 25 false false _ h
  refine ⟨h2.1 c1rec (by simp), ?_⟩
  have h3 := h2.2 [("metric_tag", .str "q")] c1qrec
    (by set_option maxRecDepth 100000 in rfl) (by decide)
  exact h3

/-- Oracle whose draft response carries one idea with the out-of-enumeration
metric tag `cases prevented`; all other calls raise. -/
def c1cexOracle : CallSite → CallReq → Option String := fun site _ =>
  match site with
  | .draft => some ("\x7b\"ideas\": [\x7b\"metric_tag\": \"cases prevented\"\x7d]\x7d")
  | _ => none

/-- The record `c1cexOracle`'s run returns: its tag survives unchanged. -/
def c1cexrec : List (String × JValue) :=
  [("title", .str "Idea"), ("description", .str ""), ("instrument", .str ""),
   ("metric_tag", .str "cases prevented"), ("total_cost", .str ""),
   ("ce_vs_benchmark", .str ""), ("candidates", .arr []), ("sources", .arr []),
   ("botec", .obj []), ("reasoning", .obj []), ("doers", .arr []),
   ("doer_archetype", .str ""), ("debate", .obj [])]

/-- Claim C1 counterexample: the claim as stated is false — for topics `x`
(matching no health or animal keyword) and a model tag `cases prevented`,
the returned record's `metric_tag` is `cases prevented`, which is not in
the closed enumeration. -/
theorem metricTag_counterexample :
    synthesize_ideas c1cexOracle none true ("x") [] 25 false false
        = .ok ⟨[c1cexrec],
          "\x7b\"ideas\": [\x7b\"metric_tag\": \"cases prevented\"\x7d]\x7d", 0⟩ ∧
      pyGet c1cexrec ("metric_tag") = some (.str "cases prevented") ∧
      ("cases prevented" : String) ∉ allowedMetrics := by
  refine ⟨?_, rfl, by decide⟩
  set_option maxRecDepth 100000 in rfl

/-- Oracle whose draft idea carries the extra `novelty_rationale` field. -/
def c10oracle : CallSite → CallReq → Option String := fun site _ =>
  match site with
  | .draft =>
      some ("\x7b\"ideas\": [\x7b\"title\": \"t\", \"novelty_rationale\": \"n\"\x7d]\x7d")
  | _ => none

/-- The record returned for `c10oracle`'s draft idea: the extra field is
gone and the key set is the fixed schema. -/
def c10rec : List (String × JValue) :=
  [("title", .str "t"), ("description", .str ""), ("instrument", .str ""),
   ("metric_tag", .str ""), ("total_cost", .str ""), ("ce_vs_benchmark", .str ""),
   ("candidates", .arr []), ("sources", .arr []), ("botec", .obj []),
   ("reasoning", .obj []), ("doers", .arr []), ("doer_archetype", .str ""),
   ("debate", .obj [])]

/-- Claim C10: every idea record returned by `synthesize_ideas` has exactly
the fixed key set {title, description, instrument, metric_tag, total_cost,
ce_vs_benchmark, candidates, sources, botec, reasoning, doers,
doer_archetype, debate}; any other field of the model output — including the
`novelty_rationale` field the refinement rubric requests — is dropped, and
`reasoning` is the empty mapping whenever `show_reasoning` is false. -/
theorem ideaRecord_schema (oracle : CallSite → CallReq → Option String)
    (envModel : Option String) (apiKeySet : Bool) (topics : String)
    (documents : List Doc) (num_ideas : Nat) (show_reasoning deep_research : Bool)
    (res : SynthResult)
    (h : synthesize_ideas oracle envModel apiKeySet topics documents num_ideas
      show_reasoning deep_research = .ok res) :
    ∀ rec ∈ res.ideas,
      rec.map Prod.fst = ideaKeys ∧
        pyGet rec ("novelty_rationale") = none ∧
        (show_reasoning = false → pyGet rec ("reasoning") = some (.obj [])) := by
  intro rec hrec
  obtain ⟨u, hu⟩ := synthesize_ideas_mem oracle envModel apiKeySet topics documents
    num_ideas show_reasoning deep_research res h rec hrec
  have hf := normalizeIdea_fields topics show_reasoning u rec hu
  exact ⟨hf.1, hf.2.1, hf.2.2.1⟩

/-- Witness for `ideaRecord_schema` at a concrete run whose draft idea
carries a `novelty_rationale` field. -/
theorem ideaRecord_schema_witness :
    c10rec.map Prod.fst = ideaKeys ∧
      pyGet c10rec ("novelty_rationale") = none ∧
      pyGet c10rec ("reasoning") = some (.obj []) := by
  have h : synthesize_ideas c10oracle none true ("x") [] 25 false false
      = .ok ⟨[c10rec],
        "\x7b\"ideas\": [\x7b\"title\": \"t\", \"novelty_rationale\": \"n\"\x7d]\x7d", 0⟩ := by
    set_option maxRecDepth 100000 in rfl
  have h2 := ideaRecord_schema c10oracle none true ("x") [] 25 false false _ h
    c10rec (by simp)
  exact ⟨h2.1, h2.2.1, h2.2.2 rfl⟩

/-- Oracle for which the draft returns prose, the rescue returns a valid
one-idea array, and the refinement call raises. -/
def c6oracle : CallSite → CallReq → Option String := fun site _ =>
  match site with
  | .draft => some ("no json here")
  | .rescue => some ("[\x7b\"title\": \"t\"\x7d]")
  | .refine => none

/-- The normalized record of the rescue-produced idea. -/
def c6rec : List (String × JValue) :=
  [("title", .str "t"), ("description", .str ""), ("instrument", .str ""),
   ("metric_tag", .str ""), ("total_cost", .str ""), ("ce_vs_benchmark", .str ""),
   ("candidates", .arr []), ("sources", .arr []), ("botec", .obj []),
   ("reasoning", .obj []), ("doers", .arr []), ("doer_archetype", .str ""),
   ("debate", .obj [])]

/-- Claim C6 is right and the code is wrong (`idea_generator.py` line 283):
with an unparseable draft (`"no json here"`) and a rescue call that is the
branch producing the parsed idea list, the returned `raw` is the draft
prose, not the rescue output — the expression `raw = raw if ideas_list else
raw2` keeps the draft exactly when the rescue yielded the content,
contradicting its own comment `# keep the one that yielded content`. -/
theorem rescueRaw_code_bug :
    synthesize_ideas c6oracle none true ("x") [] 25 false false
        = .ok ⟨[c6rec], "no json here", 0⟩ ∧
      parse_ideas ("no json here") = .arr [] ∧
      parseRescue (.arr []) ("[\x7b\"title\": \"t\"\x7d]")
        = .arr [.obj [("title", .str "t")]] ∧
      ("no json here" : String) ≠ "[\x7b\"title\": \"t\"\x7d]" := by
  refine ⟨?_, rfl, rfl, by decide⟩
  set_option maxRecDepth 100000 in rfl

theorem mapE_ok_of_obj (t : String) (s : Bool) :
    ∀ xs : List JValue, (∀ v ∈ xs, ∃ m, v = JValue.obj m) →
      ∃ ys, mapE (normalizeIdea t s) xs = .ok ys ∧ ys.length = xs.length := by
  intro xs
  induction xs with
  | nil => exact fun _ => ⟨[], rfl, rfl⟩
  | cons x xs ih =>
    intro hobj
    obtain ⟨m, rfl⟩ := hobj x (by simp)
    obtain ⟨ys, hys, hlen⟩ := ih (fun v hv => hobj v (by simp [hv]))
    obtain ⟨r, hr⟩ : ∃ r, normalizeIdea t s (.obj m) = .ok r := ⟨_, rfl⟩
    refine ⟨r :: ys, ?_, by simp [hlen]⟩
    simp [mapE, hr, hys]

/-- Predicate on a refinement response: the parsed refinement yields no
usable list — unparseable output, wrongly-shaped output, or an empty
refined list. -/
def refineYieldsNothing (r : String) : Bool :=
  match loads (cleanResponse r) with
  | none => true
  | some (.obj m) =>
    match pyGet m ("ideas") with
    | some (.arr l) => l.isEmpty
    | _ => true
  | some (.arr l) => l.isEmpty
  | some _ => true

theorem refine_draft_or_empty (dc : JValue) (rr : String)
    (hfail : refineYieldsNothing rr = true) :
    _refine_ideas_with_rubric dc rr = dc ∨
      _refine_ideas_with_rubric dc rr = .arr [] := by
  unfold _refine_ideas_with_rubric
  by_cases hd : pyTruthy dc = false
  · right
    simp [hd]
  · simp only [hd, if_false]
    unfold refineYieldsNothing at hfail
    cases hl : loads (cleanResponse rr) with
    | none => left; rfl
    | some v =>
      simp only [hl] at hfail
      cases v with
      | obj m =>
        cases hg : pyGet m ("ideas") with
        | none => simp [hg]
        | some w =>
          cases w with
          | arr l2 =>
            simp only [hg] at hfail
            cases l2 with
            | nil => right; simp [hg]
            | cons z zs => simp at hfail
          | null => simp [hg]
          | bool b => simp [hg]
          | num q => simp [hg]
          | str st => simp [hg]
          | obj m2 => simp [hg]
      | arr l2 =>
        simp only at hfail
        cases l2 with
        | nil => right; rfl
        | cons z zs => simp at hfail
      | null => left; rfl
      | bool b => left; rfl
      | num q => left; rfl
      | str st => left; rfl

theorem synthTail_refine_fallback (t : String) (s : Bool) (n dl : Nat)
    (l : List JValue) (r1 rr : String) (hne : l ≠ [])
    (hobj : ∀ v ∈ l, ∃ m, v = JValue.obj m)
    (hfail : refineYieldsNothing rr = true) :
    ∃ res, synthTail t s n dl (.arr l) r1 rr = .ok res ∧
      res.ideas.length = min n l.length := by
  obtain ⟨a, l', rfl⟩ := List.exists_cons_of_ne_nil hne
  have hlt : pyTruthy (.arr (a :: l')) = true := rfl
  have hobj' : ∀ v ∈ (a :: l').take n, ∃ m, v = JValue.obj m :=
    fun v hv => hobj v (List.take_subset n (a :: l') hv)
  obtain ⟨ys, hys, hlen⟩ := mapE_ok_of_obj t s ((a :: l').take n) hobj'
  have hnorm : normalizeStage t s (.arr ((a :: l').take n)) = .ok ys := by
    simp [normalizeStage, iterElems, hys]
  have hlen' : ((a :: l').take n).length = min n (a :: l').length := by
    simp [List.length_take]
  cases htake : (a :: l').take n with
  | nil =>
    have hn0 : n = 0 := by
      rcases List.take_eq_nil_iff.mp htake with h | h
      · exact h
      · exact absurd h (by simp)
    subst hn0
    refine ⟨⟨[], r1, dl⟩, ?_, by simp⟩
    have hrefE : _refine_ideas_with_rubric (.arr []) rr = .arr [] := rfl
    simp [synthTail, pySlice, hrefE, pyTruthy, hlt, normalizeStage, iterElems, mapE]
  | cons b bs =>
    have hd : pyTruthy (.arr ((a :: l').take n)) = true := by rw [htake]; rfl
    have htt : (((a :: l').take n).take n) = (a :: l').take n := by
      rw [List.take_take, Nat.min_self]
    rcases refine_draft_or_empty (.arr ((a :: l').take n)) rr hfail with hr | hr
    · refine ⟨⟨ys, r1, dl⟩, ?_, by rw [hlen, hlen']⟩
      simp [synthTail, pySlice, hr, hd, htt, hnorm]
    · refine ⟨⟨ys, r1, dl⟩, ?_, by rw [hlen, hlen']⟩
      simp [synthTail, pySlice, hr, hd, hlt, htt, hnorm, pyTruthy]

/-- Claim C7: whenever the draft stage produced a non-empty idea list (a
non-empty list of mapping records), a refinement stage that fails to produce
a usable list — unparseable output, wrong shape, or an empty refined list —
never makes `synthesize_ideas` return fewer ideas than the draft provided:
the run succeeds (refinement failure is not surfaced as an error) and the
result holds exactly the draft list capped at `num_ideas`. -/
theorem refine_fallback (oracle : CallSite → CallReq → Option String)
    (envModel : Option String) (topics : String) (documents : List Doc)
    (num_ideas : Nat) (show_reasoning deep_research : Bool) (l : List JValue)
    (hparse : parse_ideas (_call_llm (oracle .draft) envModel
        (defaultModel envModel deep_research) (runMaxTokens deep_research)
        (runTemperature deep_research)) = .arr l)
    (hne : l ≠ [])
    (hobj : ∀ v ∈ l, ∃ m, v = JValue.obj m)
    (hfail : refineYieldsNothing (_call_llm (oracle .refine) envModel
        (defaultModel envModel deep_research) (runMaxTokens deep_research) 0.2)
      = true) :
    ∃ res, synthesize_ideas oracle envModel true topics documents num_ideas
        show_reasoning deep_research = .ok res ∧
      res.ideas.length = min num_ideas l.length := by
  have hlt : pyTruthy (.arr l) = true := by
    obtain ⟨a, l', rfl⟩ := List.exists_cons_of_ne_nil hne
    rfl
  obtain ⟨res, hres, hlen⟩ := synthTail_refine_fallback topics show_reasoning num_ideas
    documents.length l
    (_call_llm (oracle .draft) envModel (defaultModel envModel deep_research)
      (runMaxTokens deep_research) (runTemperature deep_research))
    (_call_llm (oracle .refine) envModel (defaultModel envModel deep_research)
      (runMaxTokens deep_research) 0.2) hne hobj hfail
  refine ⟨res, ?_, hlen⟩
  rw [synthesize_ideas, if_neg (by simp)]
  simp only [hparse, hlt, if_true]
  exact hres

/-- Oracle for the refine-fallback witness: one well-formed draft idea, an
unparseable refinement response. -/
def c7oracle : CallSite → CallReq → Option String := fun site _ =>
  match site with
  | .draft => some ("\x7b\"ideas\": [\x7b\"title\": \"a\"\x7d]\x7d")
  | .rescue => none
  | .refine => some ("not json")

/-- Witness for `refine_fallback` at a concrete run. -/
theorem refine_fallback_witness :
    ∃ res, synthesize_ideas c7oracle none true ("x") [] 25 false false
        = .ok res ∧ res.ideas.length = min 25 1 := by
  have h := refine_fallback c7oracle none ("x") [] 25 false false
    [.obj [("title", .str "a")]]
    (by set_option maxRecDepth 100000 in rfl)
    (by simp)
    (by intro v hv; simp at hv; exact ⟨_, hv⟩)
    (by set_option maxRecDepth 100000 in rfl)
  simpa using h
